import Mathlib

/-!
# Verification of the shingo-core edge↔core message-delivery subsystem

Shallow embedding of the Go sources:
* `plc.CalculateDelta` / `plc.tryRollover` (counter rollover arithmetic),
* the outbox store (`store/outbox.go`) and the two outbox drainers,
* the fleet poller (`rds/client.go`),
* the ingestor (`protocol/ingestor.go`),
* the hourly tracker (`engine/hourly_tracker.go`),
* the heartbeater (`messaging/heartbeat.go`),
* the core handler's production-report processing (`messaging/core_handler.go`).

Go `int64` arithmetic wraps; it is modelled by `Int` together with an
explicit reduction `wrap64` applied wherever the source performs an
`int64` operation whose mathematical value may leave the representable
range.
-/

namespace Shingo

/-! ## Go int64 arithmetic -/

/-- Wrap an integer into the `int64` range, as Go's two's-complement
`int64` operations do. -/
def wrap64 (x : Int) : Int :=
  (x + 9223372036854775808) % 18446744073709551616 - 9223372036854775808

/-- Smallest `int64` value. -/
def i64Min : Int := -9223372036854775808

/-- Largest `int64` value. -/
def i64Max : Int := 9223372036854775807

/-- `x` is representable as a Go `int64`. -/
def IsI64 (x : Int) : Prop := i64Min ≤ x ∧ x ≤ i64Max

instance (x : Int) : Decidable (IsI64 x) := by
  unfold IsI64; infer_instance

theorem wrap64_eq_of_range (x : Int) (h : IsI64 x) : wrap64 x = x := by
  obtain ⟨h1, h2⟩ := h
  unfold wrap64
  unfold i64Min at h1
  unfold i64Max at h2
  omega

theorem wrap64_add_left (a b : Int) : wrap64 (wrap64 a + b) = wrap64 (a + b) := by
  unfold wrap64
  omega

theorem wrap64_range (x : Int) : IsI64 (wrap64 x) := by
  unfold IsI64 i64Min i64Max wrap64
  constructor <;> omega

/-! ## Counter delta calculator (`plc` package)

```go
const (
    max16 int64 = 1<<16 - 1 // 65535
    max32 int64 = 1<<32 - 1 // 4294967295
)
```
-/

def max16 : Int := 65535

def max32 : Int := 4294967295

/-- The Go expression `(max - lastCount) + newCount + 1` evaluated with
`int64` operations (each intermediate wraps). -/
def rolloverDelta (mx lastCount newCount : Int) : Int :=
  wrap64 (wrap64 (wrap64 (mx - lastCount) + newCount) + 1)

/-- `tryRollover` from `handlers_manual_order.go` (plc package), the loop over
`[]int64{max16, max32}` unrolled: for the first width with
`lastCount <= max` whose candidate delta `d` satisfies
`d > 0 && d <= jumpThreshold`, return `d`; otherwise `0`. -/
def tryRollover (lastCount newCount jumpThreshold : Int) : Int :=
  if lastCount ≤ max16 ∧
      0 < rolloverDelta max16 lastCount newCount ∧
      rolloverDelta max16 lastCount newCount ≤ jumpThreshold then
    rolloverDelta max16 lastCount newCount
  else if lastCount ≤ max32 ∧
      0 < rolloverDelta max32 lastCount newCount ∧
      rolloverDelta max32 lastCount newCount ≤ jumpThreshold then
    rolloverDelta max32 lastCount newCount
  else
    0

/-- `CalculateDelta` from the plc package: returns the production delta
between two counter readings and an anomaly tag (`""`, `"reset"` or
`"jump"`).  The Go locals `rollover` and `delta` are inlined. -/
def CalculateDelta (lastCount newCount jumpThreshold : Int) : Int × String :=
  if newCount = lastCount then (0, "")
  else if newCount < lastCount then
    if 0 < tryRollover lastCount newCount jumpThreshold then
      (tryRollover lastCount newCount jumpThreshold, "")
    else (newCount, "reset")
  else
    if jumpThreshold < wrap64 (newCount - lastCount) then
      (wrap64 (newCount - lastCount), "jump")
    else (wrap64 (newCount - lastCount), "")

example : CalculateDelta 65530 5 1000 = (11, "") := by decide
example : CalculateDelta 65530 5 5 = (5, "reset") := by decide
example : CalculateDelta 100 50000 1000 = (49900, "jump") := by decide

/-- The behaviour the specification ascribes to `CalculateDelta`, stated
with exact (unbounded) integer arithmetic, following the spec's words. -/
def ClaimedDelta (lastCount newCount jumpThreshold : Int) (r : Int × String) : Prop :=
  (newCount = lastCount → r = (0, "")) ∧
  (newCount < lastCount →
    (∃ mx, (mx = max16 ∨ mx = max32) ∧ lastCount ≤ mx ∧
      0 < (mx - lastCount) + newCount + 1 ∧
      (mx - lastCount) + newCount + 1 ≤ jumpThreshold ∧
      r = ((mx - lastCount) + newCount + 1, "")) ∨
    ((¬ ∃ mx, (mx = max16 ∨ mx = max32) ∧ lastCount ≤ mx ∧
        0 < (mx - lastCount) + newCount + 1 ∧
        (mx - lastCount) + newCount + 1 ≤ jumpThreshold) ∧
      r = (newCount, "reset"))) ∧
  (lastCount < newCount →
    (jumpThreshold < newCount - lastCount → r = (newCount - lastCount, "jump")) ∧
    (newCount - lastCount ≤ jumpThreshold → r = (newCount - lastCount, "")))

/-- When the rollover width bounds the last count, the wrapped candidate
delta computed by the Go `int64` arithmetic equals its exact value. -/
theorem rolloverDelta_exact (mx lastCount newCount : Int)
    (hmx0 : 0 ≤ mx) (hmx : mx ≤ 4294967295)
    (hl : IsI64 lastCount) (hn : IsI64 newCount)
    (hlt : newCount < lastCount) (hle : lastCount ≤ mx) :
    rolloverDelta mx lastCount newCount = (mx - lastCount) + newCount + 1 := by
  obtain ⟨hl1, hl2⟩ := hl
  obtain ⟨hn1, hn2⟩ := hn
  simp only [i64Min, i64Max] at hl1 hl2 hn1 hn2
  unfold rolloverDelta wrap64
  omega

/-- **C1 (amended)**: for all `int64` inputs whose forward difference
`new - last` is itself representable as an `int64`, `CalculateDelta`
behaves exactly as the claim states, and the three concrete examples
hold. -/
theorem calculateDelta_meets_claim (lastCount newCount jumpThreshold : Int)
    (hl : IsI64 lastCount) (hn : IsI64 newCount)
    (hdiff : newCount - lastCount ≤ i64Max) :
    ClaimedDelta lastCount newCount jumpThreshold
      (CalculateDelta lastCount newCount jumpThreshold) ∧
    CalculateDelta 65530 5 1000 = (11, "") ∧
    CalculateDelta 65530 5 5 = (5, "reset") ∧
    CalculateDelta 100 50000 1000 = (49900, "jump") := by
  refine ⟨⟨?_, ?_, ?_⟩, by decide, by decide, by decide⟩
  · intro heq
    simp [CalculateDelta, heq]
  · intro hlt
    have hne : ¬ newCount = lastCount := by omega
    have hnotlt : newCount < lastCount := hlt
    simp only [CalculateDelta, if_neg hne, if_pos hnotlt]
    have hex16 := fun h =>
      rolloverDelta_exact max16 lastCount newCount (by norm_num [max16])
        (by norm_num [max16]) hl hn hlt h
    have hex32 := fun h =>
      rolloverDelta_exact max32 lastCount newCount (by norm_num [max32])
        (by norm_num [max32]) hl hn hlt h
    unfold tryRollover
    by_cases h16 : lastCount ≤ max16 ∧
        0 < rolloverDelta max16 lastCount newCount ∧
        rolloverDelta max16 lastCount newCount ≤ jumpThreshold
    · rw [if_pos h16, if_pos h16.2.1]
      left
      exact ⟨max16, Or.inl rfl, h16.1, by rw [← hex16 h16.1]; exact h16.2.1,
        by rw [← hex16 h16.1]; exact h16.2.2, by rw [hex16 h16.1]⟩
    · rw [if_neg h16]
      by_cases h32 : lastCount ≤ max32 ∧
          0 < rolloverDelta max32 lastCount newCount ∧
          rolloverDelta max32 lastCount newCount ≤ jumpThreshold
      · rw [if_pos h32, if_pos h32.2.1]
        left
        exact ⟨max32, Or.inr rfl, h32.1, by rw [← hex32 h32.1]; exact h32.2.1,
          by rw [← hex32 h32.1]; exact h32.2.2, by rw [hex32 h32.1]⟩
      · rw [if_neg h32, if_neg (by omega : ¬ (0:Int) < 0)]
        right
        refine ⟨?_, rfl⟩
        rintro ⟨mx, hmx, hle, hpos, hthr⟩
        rcases hmx with rfl | rfl
        · exact h16 ⟨hle, by rw [hex16 hle]; exact hpos, by rw [hex16 hle]; exact hthr⟩
        · exact h32 ⟨hle, by rw [hex32 hle]; exact hpos, by rw [hex32 hle]; exact hthr⟩
  · intro hgt
    have hne : ¬ newCount = lastCount := by omega
    have hnotlt : ¬ newCount < lastCount := by omega
    have hw : wrap64 (newCount - lastCount) = newCount - lastCount :=
      wrap64_eq_of_range _ ⟨by simp only [i64Min]; omega, hdiff⟩
    simp only [CalculateDelta, if_neg hne, if_neg hnotlt, hw]
    constructor
    · intro hj
      rw [if_pos hj]
    · intro hj
      rw [if_neg (by omega)]

/-- **C1** witness: the amended theorem applied at the spec's own example
input `(65530, 5, 1000)`. -/
theorem calculateDelta_meets_claim_witness :
    ClaimedDelta 65530 5 1000 (CalculateDelta 65530 5 1000) ∧
    CalculateDelta 65530 5 1000 = (11, "") ∧
    CalculateDelta 65530 5 5 = (5, "reset") ∧
    CalculateDelta 100 50000 1000 = (49900, "jump") :=
  calculateDelta_meets_claim 65530 5 1000 (by decide) (by decide) (by decide)

/-- **C1** counterexample: at `last = -1`, `new = 2^63 - 1`,
`jump_threshold = 1000` (all valid `int64` values) the Go subtraction
`new - last` wraps to `-2^63`, so the code returns `(-2^63, "")` while
the claim, read with exact arithmetic, demands `(2^63, "jump")`. -/
theorem calculateDelta_claim_counterexample :
    CalculateDelta (-1) 9223372036854775807 1000 = (-9223372036854775808, "") ∧
    ¬ ClaimedDelta (-1) 9223372036854775807 1000
        (CalculateDelta (-1) 9223372036854775807 1000) := by
  have hval : CalculateDelta (-1) 9223372036854775807 1000 =
      (-9223372036854775808, "") := by decide
  refine ⟨hval, fun h => ?_⟩
  have h3 := (h.2.2 (by norm_num)).1 (by norm_num)
  rw [hval] at h3
  have := congrArg Prod.fst h3
  norm_num at this

/-! ## Outbox store (`store/outbox.go`)

The `outbox` table is modelled as a list of rows kept in ascending-id
order (the physical order of an autoincrement primary key); timestamps
and payload bytes are abstracted to integers / byte lists. -/

/-- A row of the `outbox` table. -/
structure OutboxRow where
  rowId : Int
  topic : String
  payload : List Nat
  msgType : String
  retries : Int
  createdAt : Int
  sentAt : Option Int
deriving DecidableEq

/-- `MaxOutboxRetries = 10`. -/
def MaxOutboxRetries : Int := 10

/-- The `WHERE sent_at IS NULL AND retries < MaxOutboxRetries` predicate
of `ListPendingOutbox`. -/
def isPendingRow (r : OutboxRow) : Bool :=
  r.sentAt.isNone && decide (r.retries < MaxOutboxRetries)

/-- `ListPendingOutbox(limit)`: pending rows in ascending `id` order,
at most `limit` of them. -/
def ListPendingOutbox (table : List OutboxRow) (limit : Nat) : List OutboxRow :=
  (table.filter isPendingRow).take limit

/-- `AckOutbox(id)`: set `sent_at = now` on the row(s) with that id. -/
def AckOutbox (i now : Int) (table : List OutboxRow) : List OutboxRow :=
  table.map fun r => if r.rowId = i then { r with sentAt := some now } else r

/-- `IncrementOutboxRetries(id)`: add one to `retries` on the row(s)
with that id. -/
def IncrementOutboxRetries (i : Int) (table : List OutboxRow) : List OutboxRow :=
  table.map fun r => if r.rowId = i then { r with retries := r.retries + 1 } else r

/-- The `DELETE` condition of `PurgeOldOutbox`:
`(sent_at IS NOT NULL AND sent_at < cutoff) OR (retries >= max AND created_at < cutoff)`. -/
def purgeCond (cutoff : Int) (r : OutboxRow) : Bool :=
  (match r.sentAt with
    | some t => decide (t < cutoff)
    | none => false) ||
  (decide (MaxOutboxRetries ≤ r.retries) && decide (r.createdAt < cutoff))

/-- `PurgeOldOutbox(olderThan)` keeps exactly the rows the `DELETE`
does not match. -/
def PurgeOldOutbox (cutoff : Int) (table : List OutboxRow) : List OutboxRow :=
  table.filter fun r => !purgeCond cutoff r

/-- Store state: the table plus the autoincrement counter. -/
structure OutboxState where
  table : List OutboxRow
  nextId : Int

/-- `EnqueueOutbox(payload, msgType)`: insert with `topic = 'orders'`,
`retries = 0`, `sent_at = NULL` and a fresh autoincrement id. -/
def EnqueueOutbox (payload : List Nat) (msgType : String) (now : Int)
    (s : OutboxState) : OutboxState :=
  { table := s.table ++ [⟨s.nextId, "orders", payload, msgType, 0, now, none⟩],
    nextId := s.nextId + 1 }

/-- The operations the store exposes. -/
inductive OutboxOp where
  | enqueue (payload : List Nat) (msgType : String) (now : Int)
  | ack (i now : Int)
  | incr (i : Int)
  | purge (cutoff : Int)

def applyOp (s : OutboxState) : OutboxOp → OutboxState
  | .enqueue p m now => EnqueueOutbox p m now s
  | .ack i now => { s with table := AckOutbox i now s.table }
  | .incr i => { s with table := IncrementOutboxRetries i s.table }
  | .purge c => { s with table := PurgeOldOutbox c s.table }

def applyOps (s : OutboxState) (ops : List OutboxOp) : OutboxState :=
  ops.foldl applyOp s

theorem applyOps_cons (s : OutboxState) (op : OutboxOp) (ops : List OutboxOp) :
    applyOps s (op :: ops) = applyOps (applyOp s op) ops := rfl

/-- The purge condition as a proposition. -/
theorem purgeCond_iff (cutoff : Int) (r : OutboxRow) :
    purgeCond cutoff r = true ↔
      ((∃ t, r.sentAt = some t ∧ t < cutoff) ∨
        (MaxOutboxRetries ≤ r.retries ∧ r.createdAt < cutoff)) := by
  unfold purgeCond
  cases h : r.sentAt <;> simp [h]

/-- A row already acknowledged keeps a non-NULL `sent_at` under every
further store operation, and no later row reuses its id. -/
def AckedInv (i : Int) (s : OutboxState) : Prop :=
  i < s.nextId ∧ ∀ r ∈ s.table, r.rowId = i → r.sentAt ≠ none

/-- A dead-lettered row keeps `retries ≥ MaxOutboxRetries` under every
further store operation, and no later row reuses its id. -/
def DeadInv (i : Int) (s : OutboxState) : Prop :=
  i < s.nextId ∧ ∀ r ∈ s.table, r.rowId = i → MaxOutboxRetries ≤ r.retries

theorem ackedInv_applyOp (i : Int) (s : OutboxState) (op : OutboxOp)
    (h : AckedInv i s) : AckedInv i (applyOp s op) := by
  obtain ⟨hlt, hrows⟩ := h
  cases op with
  | enqueue p m now =>
    refine ⟨by simp only [applyOp, EnqueueOutbox]; omega, ?_⟩
    intro r hr hid
    simp only [applyOp, EnqueueOutbox, List.mem_append, List.mem_singleton] at hr
    rcases hr with hr | hr
    · exact hrows r hr hid
    · subst hr; simp only at hid; omega
  | ack j now =>
    refine ⟨hlt, ?_⟩
    intro r hr hid
    simp only [applyOp, AckOutbox, List.mem_map] at hr
    obtain ⟨r0, hr0, heq⟩ := hr
    by_cases hj : r0.rowId = j
    · rw [if_pos hj] at heq
      subst heq; simp
    · rw [if_neg hj] at heq
      subst heq; exact hrows r0 hr0 hid
  | incr j =>
    refine ⟨hlt, ?_⟩
    intro r hr hid
    simp only [applyOp, IncrementOutboxRetries, List.mem_map] at hr
    obtain ⟨r0, hr0, heq⟩ := hr
    by_cases hj : r0.rowId = j
    · rw [if_pos hj] at heq
      subst heq; exact hrows r0 hr0 hid
    · rw [if_neg hj] at heq
      subst heq; exact hrows r0 hr0 hid
  | purge c =>
    refine ⟨hlt, ?_⟩
    intro r hr hid
    simp only [applyOp, PurgeOldOutbox, List.mem_filter] at hr
    exact hrows r hr.1 hid

theorem ackedInv_applyOps (i : Int) (s : OutboxState) (ops : List OutboxOp)
    (h : AckedInv i s) : AckedInv i (applyOps s ops) := by
  induction ops generalizing s with
  | nil => exact h
  | cons op ops ih => exact ih _ (ackedInv_applyOp i s op h)

theorem deadInv_applyOp (i : Int) (s : OutboxState) (op : OutboxOp)
    (h : DeadInv i s) : DeadInv i (applyOp s op) := by
  obtain ⟨hlt, hrows⟩ := h
  cases op with
  | enqueue p m now =>
    refine ⟨by simp only [applyOp, EnqueueOutbox]; omega, ?_⟩
    intro r hr hid
    simp only [applyOp, EnqueueOutbox, List.mem_append, List.mem_singleton] at hr
    rcases hr with hr | hr
    · exact hrows r hr hid
    · subst hr; simp only at hid; omega
  | ack j now =>
    refine ⟨hlt, ?_⟩
    intro r hr hid
    simp only [applyOp, AckOutbox, List.mem_map] at hr
    obtain ⟨r0, hr0, heq⟩ := hr
    by_cases hj : r0.rowId = j
    · rw [if_pos hj] at heq
      subst heq; exact hrows r0 hr0 hid
    · rw [if_neg hj] at heq
      subst heq; exact hrows r0 hr0 hid
  | incr j =>
    refine ⟨hlt, ?_⟩
    intro r hr hid
    simp only [applyOp, IncrementOutboxRetries, List.mem_map] at hr
    obtain ⟨r0, hr0, heq⟩ := hr
    by_cases hj : r0.rowId = j
    · rw [if_pos hj] at heq
      subst heq
      have := hrows r0 hr0 hid
      simp only [MaxOutboxRetries] at this ⊢
      omega
    · rw [if_neg hj] at heq
      subst heq; exact hrows r0 hr0 hid
  | purge c =>
    refine ⟨hlt, ?_⟩
    intro r hr hid
    simp only [applyOp, PurgeOldOutbox, List.mem_filter] at hr
    exact hrows r hr.1 hid

theorem deadInv_applyOps (i : Int) (s : OutboxState) (ops : List OutboxOp)
    (h : DeadInv i s) : DeadInv i (applyOps s ops) := by
  induction ops generalizing s with
  | nil => exact h
  | cons op ops ih => exact ih _ (deadInv_applyOp i s op h)

/-- Rows returned by `ListPendingOutbox` are pending rows of the table. -/
theorem mem_listPendingOutbox {r : OutboxRow} {table : List OutboxRow} {limit : Nat}
    (hr : r ∈ ListPendingOutbox table limit) :
    r ∈ table ∧ r.sentAt = none ∧ r.retries < MaxOutboxRetries := by
  have h1 : r ∈ table.filter isPendingRow := List.mem_of_mem_take hr
  rw [List.mem_filter] at h1
  obtain ⟨hmem, hpend⟩ := h1
  unfold isPendingRow at hpend
  simp only [Bool.and_eq_true, decide_eq_true_eq, Option.isNone_iff_eq_none] at hpend
  exact ⟨hmem, hpend.1, hpend.2⟩

/-- **C3**: `ListPendingOutbox(limit)` returns only rows with
`sent_at = NULL` and `retries < 10`, at most `limit` of them, in
ascending id order; once a row is acked, or its retries have reached 10,
no sequence of further store operations makes `ListPendingOutbox`
return it again. -/
theorem outbox_pending_contract (s : OutboxState) (limit : Nat) :
    (∀ r ∈ ListPendingOutbox s.table limit,
        r.sentAt = none ∧ r.retries < MaxOutboxRetries ∧ r ∈ s.table) ∧
    (ListPendingOutbox s.table limit).length ≤ limit ∧
    (s.table.Pairwise (fun a b => a.rowId < b.rowId) →
      (ListPendingOutbox s.table limit).Pairwise (fun a b => a.rowId < b.rowId)) ∧
    (∀ i now ops lim2, i < s.nextId →
      ∀ r ∈ ListPendingOutbox (applyOps (applyOp s (.ack i now)) ops).table lim2,
        r.rowId ≠ i) ∧
    (∀ i ops lim2, i < s.nextId →
      (∀ r ∈ s.table, r.rowId = i → MaxOutboxRetries ≤ r.retries) →
      ∀ r ∈ ListPendingOutbox (applyOps s ops).table lim2, r.rowId ≠ i) := by
  refine ⟨?_, ?_, ?_, ?_, ?_⟩
  · intro r hr
    have := mem_listPendingOutbox hr
    exact ⟨this.2.1, this.2.2, this.1⟩
  · exact List.length_take_le _ _
  · intro h
    exact ((h.filter _).sublist (List.take_sublist _ _))
  · intro i now ops lim2 hi r hr hid
    have hstart : AckedInv i (applyOp s (.ack i now)) := by
      refine ⟨hi, ?_⟩
      intro r' hr' hid'
      simp only [applyOp, AckOutbox, List.mem_map] at hr'
      obtain ⟨r0, _, heq⟩ := hr'
      by_cases hj : r0.rowId = i
      · rw [if_pos hj] at heq; subst heq; simp
      · rw [if_neg hj] at heq; subst heq; exact absurd hid' hj
    have hfin := (ackedInv_applyOps i _ ops hstart).2
    have hmem := mem_listPendingOutbox hr
    exact hfin r hmem.1 hid hmem.2.1
  · intro i ops lim2 hi hdead r hr hid
    have hfin := (deadInv_applyOps i s ops ⟨hi, hdead⟩).2
    have hmem := mem_listPendingOutbox hr
    have := hfin r hmem.1 hid
    have hlt := hmem.2.2
    simp only [MaxOutboxRetries] at this hlt
    omega

/-- A one-row store used to witness the outbox theorems on concrete data. -/
def outboxW : OutboxState :=
  { table := [⟨1, "orders", [1], "hb", 0, 0, none⟩], nextId := 2 }

/-- **C3** witness: in the concrete one-row store, after `Ack(1)` no
pending listing ever contains a row with id 1 again. -/
theorem outbox_pending_contract_witness :
    ¬ ∃ r, r ∈ ListPendingOutbox
        (applyOps (applyOp outboxW (.ack 1 7)) [.incr 1, .enqueue [2] "hb" 9]).table 50 ∧
      r.rowId = 1 := by
  rintro ⟨r, hr, hid⟩
  exact (outbox_pending_contract outboxW 50).2.2.2.1 1 7 [.incr 1, .enqueue [2] "hb" 9]
    50 (by norm_num [outboxW]) r hr hid

/-- **C9**: `PurgeOldOutbox` keeps a row of the table iff the row is
neither acked-older-than-cutoff nor dead-lettered-and-created before the
cutoff; in particular a still-pending row is never deleted, whatever its
age. -/
theorem purgeOldOutbox_contract (cutoff : Int) (table : List OutboxRow) :
    (∀ r ∈ table,
      (r ∈ PurgeOldOutbox cutoff table ↔
        ¬ ((∃ t, r.sentAt = some t ∧ t < cutoff) ∨
            (MaxOutboxRetries ≤ r.retries ∧ r.createdAt < cutoff)))) ∧
    (∀ r ∈ table, r.sentAt = none → r.retries < MaxOutboxRetries →
      r ∈ PurgeOldOutbox cutoff table) := by
  have hmem : ∀ r ∈ table,
      (r ∈ PurgeOldOutbox cutoff table ↔
        ¬ ((∃ t, r.sentAt = some t ∧ t < cutoff) ∨
            (MaxOutboxRetries ≤ r.retries ∧ r.createdAt < cutoff))) := by
    intro r hr
    rw [← purgeCond_iff]
    unfold PurgeOldOutbox
    rw [List.mem_filter]
    simp [hr]
  refine ⟨hmem, ?_⟩
  intro r hr hnone hretr
  rw [hmem r hr]
  rintro (⟨t, ht, _⟩ | ⟨hge, _⟩)
  · rw [hnone] at ht; exact Option.noConfusion ht
  · simp only [MaxOutboxRetries] at hge hretr; omega

/-- **C9** witness: an arbitrarily old still-pending row survives the
purge. -/
theorem purgeOldOutbox_contract_witness :
    (⟨1, "orders", [1], "hb", 0, -1000000, none⟩ : OutboxRow) ∈
      PurgeOldOutbox 100 [⟨1, "orders", [1], "hb", 0, -1000000, none⟩] :=
  (purgeOldOutbox_contract 100 _).2 _ (List.mem_singleton.mpr rfl) rfl (by norm_num [MaxOutboxRetries])

/-! ## Outbox drainers (`shingo-edge/messaging/outbox.go`,
`shingo-core/messaging/core_handler.go` part 2)

Both `drain` functions read `ListPendingOutbox(50)` and walk the batch,
acking on publish success and incrementing retries on failure.  They
differ only in the topic handed to `Publish`: the core drainer uses
`msg.Topic`, the edge drainer uses the configured `cfg.OrdersTopic`.
`pub k` is the oracle for the success of the `k`-th publish call of the
tick; the result is the table after the tick and the list of
`(topic, payload)` pairs actually published, in publish order. -/

def drainBatch (topicOf : OutboxRow → String) (pub : Nat → Bool) (now : Int) :
    List OutboxRow → Nat → List OutboxRow → List OutboxRow × List (String × List Nat)
  | [], _, t => (t, [])
  | m :: ms, k, t =>
    if pub k then
      let rest := drainBatch topicOf pub now ms (k + 1) (AckOutbox m.rowId now t)
      (rest.1, (topicOf m, m.payload) :: rest.2)
    else
      drainBatch topicOf pub now ms (k + 1) (IncrementOutboxRetries m.rowId t)

/-- The core drainer's `drain`: skip when the bus is not connected,
otherwise pump `ListPendingOutbox(50)` publishing each message to
`msg.Topic`. -/
def coreDrain (connected : Bool) (pub : Nat → Bool) (now : Int)
    (table : List OutboxRow) : List OutboxRow × List (String × List Nat) :=
  if !connected then (table, [])
  else drainBatch (fun m => m.topic) pub now (ListPendingOutbox table 50) 0 table

/-- The edge drainer's `drain`: same control flow, but every message is
published to the configured orders topic. -/
def edgeDrain (ordersTopic : String) (connected : Bool) (pub : Nat → Bool)
    (now : Int) (table : List OutboxRow) : List OutboxRow × List (String × List Nat) :=
  if !connected then (table, [])
  else drainBatch (fun _ => ordersTopic) pub now (ListPendingOutbox table 50) 0 table

/-- Specification-side description of what one tick does to a single
row: the row of the batch with its id is acked on publish success and
gets one more retry on failure; rows outside the batch are untouched. -/
def batchUpdateRow (pub : Nat → Bool) (now : Int) :
    List OutboxRow → Nat → OutboxRow → OutboxRow
  | [], _, r => r
  | m :: ms, k, r =>
    if m.rowId = r.rowId then
      (if pub k then { r with sentAt := some now } else { r with retries := r.retries + 1 })
    else batchUpdateRow pub now ms (k + 1) r

/-- Specification-side description of what one tick publishes: the
batch's messages in batch (ascending id) order, keeping exactly those
whose publish succeeded. -/
def batchPublished (topicOf : OutboxRow → String) (pub : Nat → Bool) :
    List OutboxRow → Nat → List (String × List Nat)
  | [], _ => []
  | m :: ms, k =>
    if pub k then (topicOf m, m.payload) :: batchPublished topicOf pub ms (k + 1)
    else batchPublished topicOf pub ms (k + 1)

theorem batchUpdateRow_cons (pub : Nat → Bool) (now : Int) (m : OutboxRow)
    (ms : List OutboxRow) (k : Nat) (r : OutboxRow) :
    batchUpdateRow pub now (m :: ms) k r =
      if m.rowId = r.rowId then
        (if pub k then { r with sentAt := some now } else { r with retries := r.retries + 1 })
      else batchUpdateRow pub now ms (k + 1) r := rfl

theorem batchUpdateRow_not_mem (pub : Nat → Bool) (now : Int)
    (ms : List OutboxRow) (r : OutboxRow)
    (h : ∀ m ∈ ms, m.rowId ≠ r.rowId) :
    ∀ k, batchUpdateRow pub now ms k r = r := by
  induction ms with
  | nil => intro k; rfl
  | cons m ms ih =>
    intro k
    unfold batchUpdateRow
    rw [if_neg (h m (List.mem_cons_self m ms))]
    exact ih (fun m' hm' => h m' (List.mem_cons_of_mem m hm')) (k + 1)

/-- A drainer tick acts on the table row-by-row and publishes exactly
the batch messages whose publish call succeeded, provided batch ids are
distinct. -/
theorem drainBatch_characterization (topicOf : OutboxRow → String)
    (pub : Nat → Bool) (now : Int) (ms : List OutboxRow) :
    (ms.map OutboxRow.rowId).Nodup →
    ∀ (k : Nat) (t : List OutboxRow),
      drainBatch topicOf pub now ms k t =
        (t.map (batchUpdateRow pub now ms k), batchPublished topicOf pub ms k) := by
  induction ms with
  | nil =>
    intro _ k t
    unfold drainBatch batchPublished
    have : t.map (batchUpdateRow pub now [] k) = t := by
      rw [show batchUpdateRow pub now [] k = id from rfl, List.map_id]
    rw [this]
  | cons m ms ih =>
    intro hnodup k t
    rw [List.map_cons, List.nodup_cons] at hnodup
    obtain ⟨hnotin, hnodup'⟩ := hnodup
    have hne : ∀ m' ∈ ms, m'.rowId ≠ m.rowId := by
      intro m' hm' heq
      exact hnotin (heq ▸ List.mem_map_of_mem OutboxRow.rowId hm')
    unfold drainBatch batchPublished
    by_cases hp : pub k
    · rw [if_pos hp, if_pos hp, ih hnodup' (k + 1) (AckOutbox m.rowId now t)]
      refine Prod.ext ?_ rfl
      show (AckOutbox m.rowId now t).map (batchUpdateRow pub now ms (k + 1)) =
        t.map (batchUpdateRow pub now (m :: ms) k)
      unfold AckOutbox
      rw [List.map_map]
      refine List.map_congr_left ?_
      intro r _
      simp only [Function.comp_apply]
      by_cases hr : r.rowId = m.rowId
      · rw [if_pos hr]
        have := batchUpdateRow_not_mem pub now ms { r with sentAt := some now }
          (fun m' hm' => by simpa [hr] using hne m' hm') (k + 1)
        rw [this]
        show _ = batchUpdateRow pub now (m :: ms) k r
        rw [batchUpdateRow_cons, if_pos hr.symm, if_pos hp]
      · rw [if_neg hr]
        show _ = batchUpdateRow pub now (m :: ms) k r
        rw [batchUpdateRow_cons, if_neg (fun h => hr h.symm)]
    · rw [if_neg hp, if_neg hp, ih hnodup' (k + 1) (IncrementOutboxRetries m.rowId t)]
      refine Prod.ext ?_ rfl
      show (IncrementOutboxRetries m.rowId t).map (batchUpdateRow pub now ms (k + 1)) =
        t.map (batchUpdateRow pub now (m :: ms) k)
      unfold IncrementOutboxRetries
      rw [List.map_map]
      refine List.map_congr_left ?_
      intro r _
      simp only [Function.comp_apply]
      by_cases hr : r.rowId = m.rowId
      · rw [if_pos hr]
        have := batchUpdateRow_not_mem pub now ms { r with retries := r.retries + 1 }
          (fun m' hm' => by simpa [hr] using hne m' hm') (k + 1)
        rw [this]
        show _ = batchUpdateRow pub now (m :: ms) k r
        rw [batchUpdateRow_cons, if_pos hr.symm, if_neg hp]
      · rw [if_neg hr]
        show _ = batchUpdateRow pub now (m :: ms) k r
        rw [batchUpdateRow_cons, if_neg (fun h => hr h.symm)]

/-- In an ascending-id table the pending batch has distinct ids. -/
theorem listPendingOutbox_ids_nodup (table : List OutboxRow) (limit : Nat)
    (h : table.Pairwise (fun a b => a.rowId < b.rowId)) :
    ((ListPendingOutbox table limit).map OutboxRow.rowId).Nodup := by
  have hp : (ListPendingOutbox table limit).Pairwise (fun a b => a.rowId < b.rowId) :=
    (h.filter _).sublist (List.take_sublist _ _)
  exact List.pairwise_map.mpr (hp.imp ne_of_lt)

/-- **C2 (amended)**: when the bus is not connected a drainer tick
publishes nothing and changes no row; when connected, either drainer
processes exactly the `ListPendingOutbox(50)` batch in ascending id
order — acking each message whose publish succeeded, incrementing the
retries of each message whose publish failed, a failure never aborting
the rest of the batch — and publishes the successful messages in batch
order, the core drainer to each message's stored topic, the edge drainer
always to the configured orders topic. -/
theorem drainer_contract :
    (∀ pub now table, coreDrain false pub now table = (table, [])) ∧
    (∀ ot pub now table, edgeDrain ot false pub now table = (table, [])) ∧
    (∀ pub now table, table.Pairwise (fun a b => a.rowId < b.rowId) →
      coreDrain true pub now table =
        (table.map (batchUpdateRow pub now (ListPendingOutbox table 50) 0),
          batchPublished (fun m => m.topic) pub (ListPendingOutbox table 50) 0)) ∧
    (∀ ot pub now table, table.Pairwise (fun a b => a.rowId < b.rowId) →
      edgeDrain ot true pub now table =
        (table.map (batchUpdateRow pub now (ListPendingOutbox table 50) 0),
          batchPublished (fun _ => ot) pub (ListPendingOutbox table 50) 0)) := by
  refine ⟨fun pub now table => rfl, fun ot pub now table => rfl, ?_, ?_⟩
  · intro pub now table h
    show drainBatch (fun m => m.topic) pub now (ListPendingOutbox table 50) 0 table = _
    exact drainBatch_characterization _ pub now _ (listPendingOutbox_ids_nodup table 50 h) 0 table
  · intro ot pub now table h
    show drainBatch (fun _ => ot) pub now (ListPendingOutbox table 50) 0 table = _
    exact drainBatch_characterization _ pub now _ (listPendingOutbox_ids_nodup table 50 h) 0 table

/-- Three pending rows used to exercise the drainers (spec scenario S3:
the middle publish fails). -/
def wtable : List OutboxRow :=
  [⟨1, "orders", [1], "hb", 0, 0, none⟩,
    ⟨2, "orders", [2], "hb", 0, 0, none⟩,
    ⟨3, "orders", [3], "hb", 0, 0, none⟩]

/-- **C2** witness: the connected-tick characterization applied to the
concrete three-row table with the middle publish failing. -/
theorem drainer_contract_witness :
    coreDrain true (fun k => decide (k ≠ 1)) 5 wtable =
      (wtable.map (batchUpdateRow (fun k => decide (k ≠ 1)) 5 (ListPendingOutbox wtable 50) 0),
        batchPublished (fun m => m.topic) (fun k => decide (k ≠ 1))
          (ListPendingOutbox wtable 50) 0) :=
  drainer_contract.2.2.1 (fun k => decide (k ≠ 1)) 5 wtable (by decide)

/-- **C2** counterexample to the claim as stated: the edge drainer
publishes a message whose stored topic is `"orders"` to the configured
topic `"edge-orders"` — not to the message's own topic. -/
theorem edgeDrain_topic_counterexample :
    (edgeDrain "edge-orders" true (fun _ => true) 5
        [⟨1, "orders", [7], "hb", 0, 0, none⟩]).2 = [("edge-orders", [7])] ∧
    ¬ ∀ e ∈ (edgeDrain "edge-orders" true (fun _ => true) 5
        [⟨1, "orders", [7], "hb", 0, 0, none⟩]).2,
      ∃ m ∈ ([⟨1, "orders", [7], "hb", 0, 0, none⟩] : List OutboxRow),
        e.1 = m.topic ∧ e.2 = m.payload := by
  refine ⟨rfl, ?_⟩
  intro h
  have := h ("edge-orders", [7]) (by simp [edgeDrain, ListPendingOutbox, isPendingRow,
    MaxOutboxRetries, drainBatch, AckOutbox])
  simp at this

/-! ## Fleet poller (`shingo-core/rds/client.go`)

`OrderState` and `IsTerminal` are declared outside the given sources;
the poller's logic only compares states for equality and asks whether a
state is terminal, so the state type `σ` is kept abstract together with
an `isTerminal : σ → Bool` oracle and the initial state `created`
(`StateCreated`).  The active map is an association list
`rdsOrderID → last known state`; `fetch` stands for
`client.GetOrderDetails` (`none` = error) and `resolve` for
`resolver.ResolveRDSOrderID` (`none` = error). -/

/-- The part of `GetOrderDetails`'s result the poller reads. -/
structure OrderDetail (σ : Type) where
  state : σ
  vehicle : String

/-- An `EmitOrderStatusChanged` call. -/
structure StatusEvent (σ : Type) where
  orderID : Int
  rdsID : String
  oldState : σ
  newState : σ
  vehicle : String

def lookupA {σ : Type} (k : String) : List (String × σ) → Option σ
  | [] => none
  | (k', v) :: rest => if k' = k then some v else lookupA k rest

/-- `delete(p.active, id)`: drop the entry with that key. -/
def removeA {σ : Type} (k : String) : List (String × σ) → List (String × σ)
  | [] => []
  | (k', v) :: rest => if k' = k then removeA k rest else (k', v) :: removeA k rest

/-- `p.active[id] = v`: replace the entry with that key, appending when
absent (Go map assignment). -/
def upsertA {σ : Type} (k : String) (v : σ) : List (String × σ) → List (String × σ)
  | [] => [(k, v)]
  | (k', w) :: rest => if k' = k then (k, v) :: rest else (k', w) :: upsertA k v rest

/-- `Track`: insert with the initial `Created` state if absent. -/
def Track {σ : Type} (created : σ) (k : String) (m : List (String × σ)) :
    List (String × σ) :=
  match lookupA k m with
  | some _ => m
  | none => upsertA k created m

/-- `Untrack`: remove the id from the active set. -/
def Untrack {σ : Type} (k : String) (m : List (String × σ)) : List (String × σ) :=
  removeA k m

/-- The state-transition commit of the poll loop: remove the entry when
the new state is terminal, update it otherwise. -/
def pollUpdate {σ : Type} (isTerminal : σ → Bool) (rdsID : String) (newState : σ)
    (m : List (String × σ)) : List (String × σ) :=
  if isTerminal newState then removeA rdsID m else upsertA rdsID newState m

/-- One poll tick over the snapshot `ids` (the key set read under the
lock; an id may have been untracked concurrently, so `ids` is a free
parameter).  Returns the active map after the tick and the emitted
`OrderStatusChanged` events in emission order. -/
def poll {σ : Type} [DecidableEq σ] (isTerminal : σ → Bool)
    (fetch : String → Option (OrderDetail σ)) (resolve : String → Option Int) :
    List String → List (String × σ) → List (String × σ) × List (StatusEvent σ)
  | [], m => (m, [])
  | rdsID :: rest, m =>
    match fetch rdsID with
    | none => poll isTerminal fetch resolve rest m
    | some detail =>
      match lookupA rdsID m with
      | none => poll isTerminal fetch resolve rest m
      | some oldState =>
        if detail.state = oldState then poll isTerminal fetch resolve rest m
        else
          match resolve rdsID with
          | none => poll isTerminal fetch resolve rest
              (pollUpdate isTerminal rdsID detail.state m)
          | some orderID =>
            ((poll isTerminal fetch resolve rest
                (pollUpdate isTerminal rdsID detail.state m)).1,
              ⟨orderID, rdsID, oldState, detail.state, detail.vehicle⟩ ::
                (poll isTerminal fetch resolve rest
                  (pollUpdate isTerminal rdsID detail.state m)).2)

theorem lookupA_cons {σ : Type} (k a : String) (b : σ) (rest : List (String × σ)) :
    lookupA k ((a, b) :: rest) = if a = k then some b else lookupA k rest := rfl

theorem lookupA_removeA_ne {σ : Type} (k k' : String) (m : List (String × σ))
    (h : k ≠ k') : lookupA k (removeA k' m) = lookupA k m := by
  induction m with
  | nil => rfl
  | cons p rest ih =>
    obtain ⟨a, b⟩ := p
    show lookupA k (if a = k' then removeA k' rest else (a, b) :: removeA k' rest) = _
    by_cases ha : a = k'
    · rw [if_pos ha, ih, lookupA_cons, if_neg (fun hh : a = k => h (hh.symm.trans ha))]
    · rw [if_neg ha, lookupA_cons, lookupA_cons]
      by_cases hk : a = k
      · rw [if_pos hk, if_pos hk]
      · rw [if_neg hk, if_neg hk]
        exact ih

theorem lookupA_removeA_self {σ : Type} (k : String) (m : List (String × σ)) :
    lookupA k (removeA k m) = none := by
  induction m with
  | nil => rfl
  | cons p rest ih =>
    obtain ⟨a, b⟩ := p
    show lookupA k (if a = k then removeA k rest else (a, b) :: removeA k rest) = none
    by_cases ha : a = k
    · rw [if_pos ha]
      exact ih
    · rw [if_neg ha, lookupA_cons, if_neg ha]
      exact ih

theorem lookupA_upsertA_ne {σ : Type} (k k' : String) (v : σ) (m : List (String × σ))
    (h : k ≠ k') : lookupA k (upsertA k' v m) = lookupA k m := by
  induction m with
  | nil =>
    show lookupA k [(k', v)] = lookupA k []
    rw [lookupA_cons, if_neg (fun hh => h hh.symm)]
  | cons p rest ih =>
    obtain ⟨a, b⟩ := p
    show lookupA k (if a = k' then (k', v) :: rest else (a, b) :: upsertA k' v rest) = _
    by_cases ha : a = k'
    · rw [if_pos ha, lookupA_cons, if_neg (fun hh => h hh.symm), lookupA_cons,
        if_neg (fun hh : a = k => h (hh.symm.trans ha))]
    · rw [if_neg ha, lookupA_cons, lookupA_cons]
      by_cases hk : a = k
      · rw [if_pos hk, if_pos hk]
      · rw [if_neg hk, if_neg hk]
        exact ih

theorem lookupA_upsertA_self {σ : Type} (k : String) (v : σ) (m : List (String × σ)) :
    lookupA k (upsertA k v m) = some v := by
  induction m with
  | nil =>
    show lookupA k [(k, v)] = some v
    rw [lookupA_cons, if_pos rfl]
  | cons p rest ih =>
    obtain ⟨a, b⟩ := p
    show lookupA k (if a = k then (k, v) :: rest else (a, b) :: upsertA k v rest) = some v
    by_cases ha : a = k
    · rw [if_pos ha, lookupA_cons, if_pos rfl]
    · rw [if_neg ha, lookupA_cons, if_neg ha]
      exact ih

theorem lookupA_pollUpdate_ne {σ : Type} (isTerminal : σ → Bool) (rdsID : String)
    (ns : σ) (m : List (String × σ)) (j : String) (h : j ≠ rdsID) :
    lookupA j (pollUpdate isTerminal rdsID ns m) = lookupA j m := by
  unfold pollUpdate
  by_cases ht : isTerminal ns
  · rw [if_pos ht]
    exact lookupA_removeA_ne j rdsID m h
  · rw [if_neg ht]
    exact lookupA_upsertA_ne j rdsID ns m h

theorem lookupA_pollUpdate_self {σ : Type} (isTerminal : σ → Bool) (rdsID : String)
    (ns : σ) (m : List (String × σ)) :
    lookupA rdsID (pollUpdate isTerminal rdsID ns m) =
      if isTerminal ns then none else some ns := by
  unfold pollUpdate
  by_cases ht : isTerminal ns
  · rw [if_pos ht, if_pos ht]
    exact lookupA_removeA_self rdsID m
  · rw [if_neg ht, if_neg ht]
    exact lookupA_upsertA_self rdsID ns m

theorem poll_cons {σ : Type} [DecidableEq σ] (isTerminal : σ → Bool)
    (fetch : String → Option (OrderDetail σ)) (resolve : String → Option Int)
    (rdsID : String) (rest : List String) (m : List (String × σ)) :
    poll isTerminal fetch resolve (rdsID :: rest) m =
      match fetch rdsID with
      | none => poll isTerminal fetch resolve rest m
      | some detail =>
        match lookupA rdsID m with
        | none => poll isTerminal fetch resolve rest m
        | some oldState =>
          if detail.state = oldState then poll isTerminal fetch resolve rest m
          else
            match resolve rdsID with
            | none => poll isTerminal fetch resolve rest
                (pollUpdate isTerminal rdsID detail.state m)
            | some orderID =>
              ((poll isTerminal fetch resolve rest
                  (pollUpdate isTerminal rdsID detail.state m)).1,
                ⟨orderID, rdsID, oldState, detail.state, detail.vehicle⟩ ::
                  (poll isTerminal fetch resolve rest
                    (pollUpdate isTerminal rdsID detail.state m)).2) := rfl

/-- Processing the head of the snapshot changes the map only at the head
id and contributes only events for the head id. -/
theorem poll_cons_decompose {σ : Type} [DecidableEq σ] (isTerminal : σ → Bool)
    (fetch : String → Option (OrderDetail σ)) (resolve : String → Option Int)
    (rdsID : String) (rest : List String) (m : List (String × σ)) :
    ∃ (m' : List (String × σ)) (pre : List (StatusEvent σ)),
      (∀ e ∈ pre, e.rdsID = rdsID) ∧
      (∀ j, j ≠ rdsID → lookupA j m' = lookupA j m) ∧
      poll isTerminal fetch resolve (rdsID :: rest) m =
        ((poll isTerminal fetch resolve rest m').1,
          pre ++ (poll isTerminal fetch resolve rest m').2) := by
  rw [poll_cons]
  cases hf : fetch rdsID with
  | none => exact ⟨m, [], by simp, fun j _ => rfl, by simp⟩
  | some detail =>
    cases hl : lookupA rdsID m with
    | none => exact ⟨m, [], by simp, fun j _ => rfl, by simp⟩
    | some oldState =>
      dsimp only
      by_cases hs : detail.state = oldState
      · rw [if_pos hs]
        exact ⟨m, [], by simp, fun j _ => rfl, by simp⟩
      · rw [if_neg hs]
        cases hr : resolve rdsID with
        | none =>
          exact ⟨pollUpdate isTerminal rdsID detail.state m, [], by simp,
            fun j hj => lookupA_pollUpdate_ne _ _ _ _ j hj, by simp⟩
        | some orderID =>
          exact ⟨pollUpdate isTerminal rdsID detail.state m,
            [⟨orderID, rdsID, oldState, detail.state, detail.vehicle⟩],
            by simp, fun j hj => lookupA_pollUpdate_ne _ _ _ _ j hj, by simp⟩

/-- Ids outside the snapshot are untouched by a poll tick and receive no
events. -/
theorem poll_frame {σ : Type} [DecidableEq σ] (isTerminal : σ → Bool)
    (fetch : String → Option (OrderDetail σ)) (resolve : String → Option Int)
    (ids : List String) (m : List (String × σ)) (j : String) (h : j ∉ ids) :
    lookupA j (poll isTerminal fetch resolve ids m).1 = lookupA j m ∧
    ∀ e ∈ (poll isTerminal fetch resolve ids m).2, e.rdsID ≠ j := by
  induction ids generalizing m with
  | nil => exact ⟨rfl, by intro e he; cases he⟩
  | cons id0 rest ih =>
    have h0 : j ≠ id0 := fun hh => h (hh ▸ List.mem_cons_self id0 rest)
    have hr : j ∉ rest := fun hh => h (List.mem_cons_of_mem _ hh)
    obtain ⟨m', pre, hpre, hm', heq⟩ :=
      poll_cons_decompose isTerminal fetch resolve id0 rest m
    rw [heq]
    obtain ⟨ih1, ih2⟩ := ih hr (m := m')
    refine ⟨ih1.trans (hm' j h0), ?_⟩
    intro e he
    rcases List.mem_append.mp he with hp | hp
    · rw [hpre e hp]
      exact Ne.symm h0
    · exact ih2 e hp

/-- What the claim asserts a poll tick does for one snapshot id `id`:
unchanged entry and no event when the fetched state equals the stored
one (or the fetch errored, or the id was untracked between snapshot and
lookup); on a transition, entry removed iff terminal, updated otherwise,
and exactly one event with the observed (old, new) pair when the id
resolves, none when it does not. -/
def PollObs {σ : Type} [DecidableEq σ] (isTerminal : σ → Bool)
    (fetch : String → Option (OrderDetail σ)) (resolve : String → Option Int)
    (ids : List String) (m : List (String × σ)) (id : String) : Prop :=
  (fetch id = none →
    lookupA id (poll isTerminal fetch resolve ids m).1 = lookupA id m ∧
    (poll isTerminal fetch resolve ids m).2.filter (fun e => decide (e.rdsID = id)) = []) ∧
  (lookupA id m = none →
    lookupA id (poll isTerminal fetch resolve ids m).1 = none ∧
    (poll isTerminal fetch resolve ids m).2.filter (fun e => decide (e.rdsID = id)) = []) ∧
  (∀ d old, fetch id = some d → lookupA id m = some old → d.state = old →
    lookupA id (poll isTerminal fetch resolve ids m).1 = some old ∧
    (poll isTerminal fetch resolve ids m).2.filter (fun e => decide (e.rdsID = id)) = []) ∧
  (∀ d old, fetch id = some d → lookupA id m = some old → d.state ≠ old →
    lookupA id (poll isTerminal fetch resolve ids m).1 =
      (if isTerminal d.state then none else some d.state) ∧
    (poll isTerminal fetch resolve ids m).2.filter (fun e => decide (e.rdsID = id)) =
      (match resolve id with
        | some oid => [⟨oid, id, old, d.state, d.vehicle⟩]
        | none => []))

/-- **C4**: on each poll tick, every id of the snapshot is handled as
the claim states: equal state → entry unchanged, nothing emitted; new
state → entry removed iff terminal, updated otherwise, and at most one
`OrderStatusChanged` event with the observed (old, new) pair (exactly
one when the id resolves); an id untracked between snapshot and lookup,
or whose fetch fails, is skipped with no change and no event. -/
theorem poller_poll_contract {σ : Type} [DecidableEq σ] (isTerminal : σ → Bool)
    (fetch : String → Option (OrderDetail σ)) (resolve : String → Option Int)
    (ids : List String) (m : List (String × σ)) (hnd : ids.Nodup) (id : String)
    (hid : id ∈ ids) :
    PollObs isTerminal fetch resolve ids m id := by
  induction ids generalizing m with
  | nil => cases hid
  | cons id0 rest ih =>
    obtain ⟨h0notin, hndr⟩ := List.nodup_cons.mp hnd
    by_cases heq : id = id0
    · subst heq
      have hfr := fun m2 => poll_frame isTerminal fetch resolve rest m2 id h0notin
      cases hf : fetch id with
      | none =>
        have hred : poll isTerminal fetch resolve (id :: rest) m =
            poll isTerminal fetch resolve rest m := by rw [poll_cons, hf]
        obtain ⟨f1, f2⟩ := hfr m
        have hnil : (poll isTerminal fetch resolve rest m).2.filter
            (fun e => decide (e.rdsID = id)) = [] :=
          List.filter_eq_nil_iff.mpr (fun e he => by simp [f2 e he])
        refine ⟨fun _ => ?_, fun h2 => ?_, fun d old hfd _ _ => ?_, fun d old hfd _ _ => ?_⟩
        · rw [hred]; exact ⟨f1, hnil⟩
        · rw [hred]; exact ⟨f1.trans h2, hnil⟩
        · rw [hf] at hfd; exact absurd hfd (by simp)
        · rw [hf] at hfd; exact absurd hfd (by simp)
      | some detail =>
        cases hl : lookupA id m with
        | none =>
          have hred : poll isTerminal fetch resolve (id :: rest) m =
              poll isTerminal fetch resolve rest m := by rw [poll_cons, hf, hl]
          obtain ⟨f1, f2⟩ := hfr m
          have hnil : (poll isTerminal fetch resolve rest m).2.filter
              (fun e => decide (e.rdsID = id)) = [] :=
            List.filter_eq_nil_iff.mpr (fun e he => by simp [f2 e he])
          refine ⟨fun h1 => ?_, fun _ => ?_, fun d old _ hlo _ => ?_, fun d old _ hlo _ => ?_⟩
          · rw [hf] at h1; exact absurd h1 (by simp)
          · rw [hred]; exact ⟨f1.trans hl, hnil⟩
          · rw [hl] at hlo; exact absurd hlo (by simp)
          · rw [hl] at hlo; exact absurd hlo (by simp)
        | some oldState =>
          by_cases hs : detail.state = oldState
          · have hred : poll isTerminal fetch resolve (id :: rest) m =
                poll isTerminal fetch resolve rest m := by
              rw [poll_cons, hf, hl]
              dsimp only
              rw [if_pos hs]
            obtain ⟨f1, f2⟩ := hfr m
            have hnil : (poll isTerminal fetch resolve rest m).2.filter
                (fun e => decide (e.rdsID = id)) = [] :=
              List.filter_eq_nil_iff.mpr (fun e he => by simp [f2 e he])
            refine ⟨fun h1 => ?_, fun h2 => ?_, fun d old hfd hlo _ => ?_,
              fun d old hfd hlo hde => ?_⟩
            · rw [hf] at h1; exact absurd h1 (by simp)
            · rw [hl] at h2; exact absurd h2 (by simp)
            · rw [hf] at hfd; rw [hl] at hlo
              obtain rfl : detail = d := Option.some.inj hfd
              obtain rfl : oldState = old := Option.some.inj hlo
              rw [hred]
              exact ⟨f1.trans hl, hnil⟩
            · rw [hf] at hfd; rw [hl] at hlo
              obtain rfl : detail = d := Option.some.inj hfd
              obtain rfl : oldState = old := Option.some.inj hlo
              exact absurd hs hde
          · cases hr : resolve id with
            | none =>
              have hred : poll isTerminal fetch resolve (id :: rest) m =
                  poll isTerminal fetch resolve rest
                    (pollUpdate isTerminal id detail.state m) := by
                rw [poll_cons, hf, hl]
                dsimp only
                rw [if_neg hs, hr]
              obtain ⟨f1, f2⟩ := hfr (pollUpdate isTerminal id detail.state m)
              have hnil : (poll isTerminal fetch resolve rest
                  (pollUpdate isTerminal id detail.state m)).2.filter
                  (fun e => decide (e.rdsID = id)) = [] :=
                List.filter_eq_nil_iff.mpr (fun e he => by simp [f2 e he])
              refine ⟨fun h1 => ?_, fun h2 => ?_, fun d old hfd hlo hde => ?_,
                fun d old hfd hlo hde => ?_⟩
              · rw [hf] at h1; exact absurd h1 (by simp)
              · rw [hl] at h2; exact absurd h2 (by simp)
              · rw [hf] at hfd; rw [hl] at hlo
                obtain rfl : detail = d := Option.some.inj hfd
                obtain rfl : oldState = old := Option.some.inj hlo
                exact absurd hde hs
              · rw [hf] at hfd; rw [hl] at hlo
                obtain rfl : detail = d := Option.some.inj hfd
                obtain rfl : oldState = old := Option.some.inj hlo
                rw [hred, hr]
                exact ⟨f1.trans (lookupA_pollUpdate_self isTerminal id _ m), hnil⟩
            | some orderID =>
              have hred : poll isTerminal fetch resolve (id :: rest) m =
                  ((poll isTerminal fetch resolve rest
                      (pollUpdate isTerminal id detail.state m)).1,
                    ⟨orderID, id, oldState, detail.state, detail.vehicle⟩ ::
                      (poll isTerminal fetch resolve rest
                        (pollUpdate isTerminal id detail.state m)).2) := by
                rw [poll_cons, hf, hl]
                dsimp only
                rw [if_neg hs, hr]
              obtain ⟨f1, f2⟩ := hfr (pollUpdate isTerminal id detail.state m)
              have hnil : (poll isTerminal fetch resolve rest
                  (pollUpdate isTerminal id detail.state m)).2.filter
                  (fun e => decide (e.rdsID = id)) = [] :=
                List.filter_eq_nil_iff.mpr (fun e he => by simp [f2 e he])
              refine ⟨fun h1 => ?_, fun h2 => ?_, fun d old hfd hlo hde => ?_,
                fun d old hfd hlo hde => ?_⟩
              · rw [hf] at h1; exact absurd h1 (by simp)
              · rw [hl] at h2; exact absurd h2 (by simp)
              · rw [hf] at hfd; rw [hl] at hlo
                obtain rfl : detail = d := Option.some.inj hfd
                obtain rfl : oldState = old := Option.some.inj hlo
                exact absurd hde hs
              · rw [hf] at hfd; rw [hl] at hlo
                obtain rfl : detail = d := Option.some.inj hfd
                obtain rfl : oldState = old := Option.some.inj hlo
                rw [hred, hr]
                refine ⟨f1.trans (lookupA_pollUpdate_self isTerminal id _ m), ?_⟩
                show (_ :: _).filter _ = _
                rw [List.filter_cons_of_pos (by simp), hnil]
    · have hidr : id ∈ rest := (List.mem_cons.mp hid).resolve_left heq
      obtain ⟨m', pre, hpre, hm', heqd⟩ :=
        poll_cons_decompose isTerminal fetch resolve id0 rest m
      have hmeq : lookupA id m' = lookupA id m := hm' id heq
      obtain ⟨ih1, ih2, ih3, ih4⟩ := ih hndr hidr (m := m')
      have hfilter : ∀ l : List (StatusEvent σ),
          (pre ++ l).filter (fun e => decide (e.rdsID = id)) =
            l.filter (fun e => decide (e.rdsID = id)) := by
        intro l
        rw [List.filter_append,
          List.filter_eq_nil_iff.mpr (fun e he => by
            simp only [hpre e he, decide_eq_true_eq]
            exact Ne.symm heq),
          List.nil_append]
      refine ⟨fun h1 => ?_, fun h2 => ?_, fun d old hfd hlo hde => ?_,
        fun d old hfd hlo hde => ?_⟩
      · obtain ⟨a, b⟩ := ih1 h1
        rw [heqd]
        exact ⟨a.trans hmeq, by rw [hfilter]; exact b⟩
      · obtain ⟨a, b⟩ := ih2 (hmeq.trans h2)
        rw [heqd]
        exact ⟨a, by rw [hfilter]; exact b⟩
      · obtain ⟨a, b⟩ := ih3 d old hfd (hmeq.trans hlo) hde
        rw [heqd]
        exact ⟨a, by rw [hfilter]; exact b⟩
      · obtain ⟨a, b⟩ := ih4 d old hfd (hmeq.trans hlo) hde
        rw [heqd]
        exact ⟨a, by rw [hfilter]; exact b⟩

/-- **C4** witness: the S5 scenario — track "R-1" (initial state
`"Created"`), one poll fetches `"Assigned"` which resolves to internal
order 7. -/
theorem poller_poll_contract_witness :
    PollObs (fun s => decide (s = "Completed"))
      (fun _ => some ⟨"Assigned", "bot1"⟩) (fun _ => some 7)
      ["R-1"] (Track "Created" "R-1" []) "R-1" :=
  poller_poll_contract (fun s => decide (s = "Completed"))
    (fun _ => some ⟨"Assigned", "bot1"⟩) (fun _ => some 7)
    ["R-1"] (Track "Created" "R-1" []) (by decide) "R-1" (by decide)

/-! ## Ingestor (`protocol/ingestor.go`)

`HandleRaw` performs the two-phase decode.  Decoding, expiry and the
filter are oracles: `decodeHeader` is the phase-1 `json.Unmarshal` into
`RawHeader` (`none` = error), `isExpired` is `IsExpiredHeader`,
`filterF` is the optional caller-supplied filter (`none` = nil),
`decodeEnvelope` is the phase-2 unmarshal, and `decodePayload t` is the
payload unmarshal used by `decodeAndCall` in the switch arm for message
type `t`.  The result is the handler invocation performed
(`some (type, envelope, payload)`) or `none` when the message is
dropped; the 12 switch arms are collapsed into the type-indexed
`decodePayload`/invocation pair. -/

/-- The closed set of message type constants (`protocol/types.go`). -/
def KnownTypes : List String :=
  ["data", "order.request", "order.cancel", "order.receipt", "order.redirect",
    "order.storage_waybill", "order.ack", "order.waybill", "order.update",
    "order.delivered", "order.error", "order.cancelled"]

/-- The part of the envelope the dispatch switch reads. -/
structure IngestEnv (β : Type) where
  type : String
  payload : β

/-- The Go guard `ing.filter != nil && !ing.filter(&hdr)`. -/
def filterRejects {η : Type} (filterF : Option (η → Bool)) (hdr : η) : Bool :=
  match filterF with
  | some f => !f hdr
  | none => false

def HandleRaw {β η π : Type} (decodeHeader : β → Option η) (isExpired : η → Bool)
    (filterF : Option (η → Bool)) (decodeEnvelope : β → Option (IngestEnv β))
    (decodePayload : String → β → Option π) (data : β) :
    Option (String × IngestEnv β × π) :=
  match decodeHeader data with
  | none => none
  | some hdr =>
    if isExpired hdr then none
    else if filterRejects filterF hdr then none
    else match decodeEnvelope data with
      | none => none
      | some env =>
        if env.type ∈ KnownTypes then
          match decodePayload env.type env.payload with
          | none => none
          | some p => some (env.type, env, p)
        else none

/-- **C5**: `HandleRaw` invokes no handler (returns `none`, and being a
total function it always returns) when the header decode fails, the
header is expired, the filter rejects, the envelope decode fails, the
payload decode fails, or the type is unknown; and any performed
invocation certifies that every phase succeeded. -/
theorem ingestor_drop_contract {β η π : Type} (decodeHeader : β → Option η)
    (isExpired : η → Bool) (filterF : Option (η → Bool))
    (decodeEnvelope : β → Option (IngestEnv β))
    (decodePayload : String → β → Option π) (data : β) :
    (decodeHeader data = none →
      HandleRaw decodeHeader isExpired filterF decodeEnvelope decodePayload data = none) ∧
    (∀ hdr, decodeHeader data = some hdr → isExpired hdr = true →
      HandleRaw decodeHeader isExpired filterF decodeEnvelope decodePayload data = none) ∧
    (∀ hdr f, decodeHeader data = some hdr → filterF = some f → f hdr = false →
      HandleRaw decodeHeader isExpired filterF decodeEnvelope decodePayload data = none) ∧
    (decodeEnvelope data = none →
      HandleRaw decodeHeader isExpired filterF decodeEnvelope decodePayload data = none) ∧
    (∀ env, decodeEnvelope data = some env →
      decodePayload env.type env.payload = none →
      HandleRaw decodeHeader isExpired filterF decodeEnvelope decodePayload data = none) ∧
    (∀ env, decodeEnvelope data = some env → env.type ∉ KnownTypes →
      HandleRaw decodeHeader isExpired filterF decodeEnvelope decodePayload data = none) ∧
    (∀ inv, HandleRaw decodeHeader isExpired filterF decodeEnvelope decodePayload data =
        some inv →
      ∃ hdr env p, decodeHeader data = some hdr ∧ isExpired hdr = false ∧
        (∀ f, filterF = some f → f hdr = true) ∧ decodeEnvelope data = some env ∧
        env.type ∈ KnownTypes ∧ decodePayload env.type env.payload = some p ∧
        inv = (env.type, env, p)) := by
  unfold HandleRaw
  cases hh : decodeHeader data with
  | none =>
    exact ⟨fun _ => rfl, fun hdr hs => absurd hs (by simp),
      fun hdr f hs => absurd hs (by simp), fun _ => rfl,
      fun _ _ _ => rfl, fun _ _ _ => rfl, fun inv hinv => by cases hinv⟩
  | some hdr0 =>
    dsimp only
    refine ⟨?_, ?_, ?_, ?_, ?_, ?_, ?_⟩
    · intro hn
      cases hn
    · intro hdr hs hexp
      obtain rfl : hdr0 = hdr := Option.some.inj hs
      rw [if_pos hexp]
    · intro hdr f hs hf hfv
      obtain rfl : hdr0 = hdr := Option.some.inj hs
      by_cases hexp : isExpired hdr0
      · rw [if_pos hexp]
      · rw [if_neg hexp, hf, if_pos (by show (!f hdr0) = true; rw [hfv]; rfl)]
    · intro henv
      by_cases hexp : isExpired hdr0
      · rw [if_pos hexp]
      · rw [if_neg hexp]
        by_cases hflt : filterRejects filterF hdr0 = true
        · rw [if_pos hflt]
        · rw [if_neg hflt]
          simp only [henv]
    · intro env henv hpl
      by_cases hexp : isExpired hdr0
      · rw [if_pos hexp]
      · rw [if_neg hexp]
        by_cases hflt : filterRejects filterF hdr0 = true
        · rw [if_pos hflt]
        · rw [if_neg hflt]
          simp only [henv]
          by_cases hkn : env.type ∈ KnownTypes
          · rw [if_pos hkn, hpl]
          · rw [if_neg hkn]
    · intro env henv hkn
      by_cases hexp : isExpired hdr0
      · rw [if_pos hexp]
      · rw [if_neg hexp]
        by_cases hflt : filterRejects filterF hdr0 = true
        · rw [if_pos hflt]
        · rw [if_neg hflt]
          simp only [henv]
          rw [if_neg hkn]
    · intro inv hinv
      by_cases hexp : isExpired hdr0
      · rw [if_pos hexp] at hinv; cases hinv
      · rw [if_neg hexp] at hinv
        by_cases hflt : filterRejects filterF hdr0 = true
        · rw [if_pos hflt] at hinv; cases hinv
        · rw [if_neg hflt] at hinv
          cases henv : decodeEnvelope data with
          | none => rw [henv] at hinv; cases hinv
          | some env =>
            simp only [henv] at hinv
            by_cases hkn : env.type ∈ KnownTypes
            · rw [if_pos hkn] at hinv
              cases hpl : decodePayload env.type env.payload with
              | none => rw [hpl] at hinv; cases hinv
              | some p =>
                simp only [hpl] at hinv
                refine ⟨hdr0, env, p, rfl, by simpa using hexp, ?_, rfl, hkn, hpl,
                  (Option.some.inj hinv).symm⟩
                intro f hfeq
                rw [hfeq] at hflt
                simp only [filterRejects, Bool.not_eq_true] at hflt
                simpa using hflt
            · rw [if_neg hkn] at hinv; cases hinv

/-- **C5** witness: an expired header is dropped with no handler
invocation (spec scenario S1). -/
theorem ingestor_drop_contract_witness :
    HandleRaw (fun _ : List Nat => some ()) (fun _ => true) none
      (fun _ => some ⟨"order.ack", []⟩) (fun _ _ => some ()) [0] = none :=
  (ingestor_drop_contract (fun _ : List Nat => some ()) (fun _ => true) none
      (fun _ => some ⟨"order.ack", []⟩) (fun _ _ => some ()) [0]).2.1 () rfl rfl

/-! ## Hourly tracker (`engine/hourly_tracker.go`, `store` hourly counts)

The `hourly_counts` table (unique key `(line_id, job_style_id,
count_date, hour)`, additive upsert) is modelled as a total function
from keys to the accumulated delta, absent rows reading as 0.  The
tracker's `time.Now().In(loc)` is the event's `now : (date, hour)`
parameter. -/

/-- `CounterDeltaEvent` (`engine/events.go`). -/
structure CounterDeltaEvent where
  reportingPointID : Int
  lineID : Int
  jobStyleID : Int
  delta : Int
  newCount : Int
  anomaly : String

/-- `UpsertHourlyCount`: `INSERT … ON CONFLICT DO UPDATE SET
delta = delta + excluded.delta`. -/
def UpsertHourlyCount (lineID jobStyleID : Int) (countDate : String) (hour : Int)
    (delta : Int) (tbl : Int × Int × String × Int → Int) :
    Int × Int × String × Int → Int :=
  fun k => if k = (lineID, jobStyleID, countDate, hour) then tbl k + delta else tbl k

/-- `HandleDelta`: drop events with zero line or style id or a
`"reset"` anomaly, otherwise add the delta into the current bucket. -/
def HandleDelta (now : String × Int) (ev : CounterDeltaEvent)
    (tbl : Int × Int × String × Int → Int) : Int × Int × String × Int → Int :=
  if ev.lineID = 0 ∨ ev.jobStyleID = 0 then tbl
  else if ev.anomaly = "reset" then tbl
  else UpsertHourlyCount ev.lineID ev.jobStyleID now.1 now.2 ev.delta tbl

/-- Feed a sequence of (timestamp, event) pairs through the tracker. -/
def processDeltas : List ((String × Int) × CounterDeltaEvent) →
    (Int × Int × String × Int → Int) → Int × Int × String × Int → Int
  | [], tbl => tbl
  | (now, ev) :: rest, tbl => processDeltas rest (HandleDelta now ev tbl)

/-- Whether an event counts towards the bucket `key`: nonzero line and
style ids, not a reset, and falling in that bucket. -/
def countsForBucket (key : Int × Int × String × Int)
    (p : (String × Int) × CounterDeltaEvent) : Bool :=
  decide (p.2.lineID ≠ 0) && decide (p.2.jobStyleID ≠ 0) &&
    decide (p.2.anomaly ≠ "reset") &&
    decide ((p.2.lineID, p.2.jobStyleID, p.1.1, p.1.2) = key)

/-- The sum of the deltas of exactly the events that count for `key`. -/
def bucketContribution (key : Int × Int × String × Int)
    (evs : List ((String × Int) × CounterDeltaEvent)) : Int :=
  ((evs.filter (countsForBucket key)).map (fun p => p.2.delta)).sum

/-- **C6**: after any sequence of events, each bucket holds its initial
value plus the sum of the deltas of exactly those events with nonzero
line and style ids and anomaly ≠ "reset" that fall in the bucket; an
event failing any of these tests leaves the table unchanged. -/
theorem hourly_tracker_contract (key : Int × Int × String × Int)
    (evs : List ((String × Int) × CounterDeltaEvent))
    (tbl : Int × Int × String × Int → Int) :
    processDeltas evs tbl key = tbl key + bucketContribution key evs ∧
    (∀ now ev, (ev.lineID = 0 ∨ ev.jobStyleID = 0 ∨ ev.anomaly = "reset") →
      HandleDelta now ev tbl = tbl) := by
  constructor
  · induction evs generalizing tbl with
    | nil => simp [processDeltas, bucketContribution]
    | cons p rest ih =>
      obtain ⟨now, ev⟩ := p
      show processDeltas rest (HandleDelta now ev tbl) key = _
      rw [ih (HandleDelta now ev tbl)]
      have hup : HandleDelta now ev tbl key =
          tbl key + (if countsForBucket key (now, ev) then ev.delta else 0) := by
        unfold HandleDelta UpsertHourlyCount countsForBucket
        by_cases h1 : ev.lineID = 0 ∨ ev.jobStyleID = 0
        · rw [if_pos h1, if_neg (by simp; omega), add_zero]
        · rw [if_neg h1]
          by_cases h2 : ev.anomaly = "reset"
          · rw [if_pos h2, if_neg (by simp [h2]), add_zero]
          · rw [if_neg h2]
            by_cases h3 : key = (ev.lineID, ev.jobStyleID, now.1, now.2)
            · rw [if_pos h3, if_pos (by simp [h2, h3.symm]; omega)]
            · rw [if_neg h3,
                if_neg (by simp [h2]; intro _ _ h; exact absurd h.symm h3), add_zero]
      rw [hup]
      have hcontrib : bucketContribution key ((now, ev) :: rest) =
          (if countsForBucket key (now, ev) then ev.delta else 0) +
            bucketContribution key rest := by
        unfold bucketContribution
        by_cases hc : countsForBucket key (now, ev)
        · rw [List.filter_cons_of_pos hc, if_pos hc]
          simp
        · rw [List.filter_cons_of_neg (by simpa using hc), if_neg hc, zero_add]
      rw [hcontrib]
      ring
  · intro now ev h
    unfold HandleDelta
    rcases h with h | h | h
    · rw [if_pos (Or.inl h)]
    · rw [if_pos (Or.inr h)]
    · by_cases h1 : ev.lineID = 0 ∨ ev.jobStyleID = 0
      · rw [if_pos h1]
      · rw [if_neg h1, if_pos h]

/-- **C6** witness: spec scenario S6 — deltas 10 and 5 plus a reset
delta for line 1, style 2 at 2024-06-01 hour 14 leave the bucket at 15. -/
theorem hourly_tracker_contract_witness :
    processDeltas
      [(("2024-06-01", 14), ⟨1, 1, 2, 10, 10, ""⟩),
        (("2024-06-01", 14), ⟨1, 1, 2, 5, 15, ""⟩),
        (("2024-06-01", 14), ⟨1, 1, 2, 7, 7, "reset"⟩)]
      (fun _ => 0) (1, 2, "2024-06-01", 14) =
      0 + bucketContribution (1, 2, "2024-06-01", 14)
        [(("2024-06-01", 14), ⟨1, 1, 2, 10, 10, ""⟩),
          (("2024-06-01", 14), ⟨1, 1, 2, 5, 15, ""⟩),
          (("2024-06-01", 14), ⟨1, 1, 2, 7, 7, "reset"⟩)] ∧
    bucketContribution (1, 2, "2024-06-01", 14)
      [(("2024-06-01", 14), ⟨1, 1, 2, 10, 10, ""⟩),
        (("2024-06-01", 14), ⟨1, 1, 2, 5, 15, ""⟩),
        (("2024-06-01", 14), ⟨1, 1, 2, 7, 7, "reset"⟩)] = 15 :=
  ⟨(hourly_tracker_contract (1, 2, "2024-06-01", 14) _ (fun _ => 0)).1, by decide⟩

/-! ## Heartbeater (`messaging/heartbeat.go`)

`publishWithRetry` makes up to 3 publish attempts; after each failed
attempt it selects between the stop channel and a backoff timer
(2s, 4s, 8s).  `pubOk k` is the success of the `k`-th publish call and
`stopDuring k` whether `Stop` is signaled during the wait following the
`k`-th failed attempt.  The outcome records the publish calls made, the
backoff sleeps completed in full, and whether the helper returned early
out of a wait because of `Stop` (returning the last error). -/

structure RetryOutcome where
  ok : Bool
  attempts : Nat
  completedWaits : List Nat
  stoppedDuringWait : Bool
deriving DecidableEq

def pwrGo (pubOk stopDuring : Nat → Bool) (attempt backoff : Nat)
    (ws : List Nat) : RetryOutcome :=
  if h : attempt < 3 then
    if pubOk attempt then ⟨true, attempt + 1, ws, false⟩
    else if stopDuring attempt then ⟨false, attempt + 1, ws, true⟩
    else pwrGo pubOk stopDuring (attempt + 1) (backoff * 2) (ws ++ [backoff])
  else ⟨false, attempt, ws, false⟩
termination_by 3 - attempt

/-- `publishWithRetry`: the `for attempt := 0; attempt < 3` loop with
`backoff` starting at 2 seconds and doubling after each wait. -/
def publishWithRetry (pubOk stopDuring : Nat → Bool) : RetryOutcome :=
  pwrGo pubOk stopDuring 0 2 []

/-- `sendHeartbeat` makes exactly one `PublishEnvelope` call when the
envelope builds (`buildOk`), none otherwise; the publish result is only
logged, never retried. -/
def sendHeartbeatPublishes (buildOk : Bool) : Nat :=
  if buildOk then 1 else 0

theorem pwrGo_step (pubOk stopDuring : Nat → Bool) (attempt backoff : Nat)
    (ws : List Nat) (h : attempt < 3) :
    pwrGo pubOk stopDuring attempt backoff ws =
      if pubOk attempt then ⟨true, attempt + 1, ws, false⟩
      else if stopDuring attempt then ⟨false, attempt + 1, ws, true⟩
      else pwrGo pubOk stopDuring (attempt + 1) (backoff * 2) (ws ++ [backoff]) := by
  rw [pwrGo.eq_def]
  rw [dif_pos h]

theorem pwrGo_exhausted (pubOk stopDuring : Nat → Bool) (backoff : Nat)
    (ws : List Nat) : pwrGo pubOk stopDuring 3 backoff ws = ⟨false, 3, ws, false⟩ := by
  rw [pwrGo.eq_def]
  rw [dif_neg (by omega)]

/-- **C7**: `publishWithRetry` makes at most 3 publish attempts, its
completed backoff waits form a prefix of 2s, 4s, 8s; when the first
attempt fails and Stop arrives during the first wait it returns the
error after exactly one attempt with no completed wait (total wait below
the first 2s backoff); a regular heartbeat makes exactly one publish
call per tick, with no retry whatever the publish result. -/
theorem heartbeater_retry_contract (pubOk stopDuring : Nat → Bool) :
    (publishWithRetry pubOk stopDuring).attempts ≤ 3 ∧
    (∃ k, k ≤ 3 ∧ (publishWithRetry pubOk stopDuring).completedWaits = [2, 4, 8].take k) ∧
    (pubOk 0 = false → stopDuring 0 = true →
      publishWithRetry pubOk stopDuring = ⟨false, 1, [], true⟩) ∧
    (∀ buildOk, sendHeartbeatPublishes buildOk ≤ 1) ∧
    sendHeartbeatPublishes true = 1 := by
  have hsh : ∀ b, sendHeartbeatPublishes b ≤ 1 := by
    intro b
    cases b <;> simp [sendHeartbeatPublishes]
  have hw : publishWithRetry pubOk stopDuring = pwrGo pubOk stopDuring 0 2 [] := rfl
  have e0 := pwrGo_step pubOk stopDuring 0 2 [] (by omega)
  have e1 := pwrGo_step pubOk stopDuring 1 4 ([] ++ [2]) (by omega)
  have e2 := pwrGo_step pubOk stopDuring 2 8 ([] ++ [2] ++ [4]) (by omega)
  have e3 := pwrGo_exhausted pubOk stopDuring 16 ([] ++ [2] ++ [4] ++ [8])
  by_cases p0 : pubOk 0
  · have hval : publishWithRetry pubOk stopDuring = ⟨true, 1, [], false⟩ := by
      rw [hw, e0, if_pos p0]
    rw [hval]
    exact ⟨by norm_num, ⟨0, by norm_num, rfl⟩,
      fun hp _ => absurd (p0.symm.trans hp) (by decide), hsh, rfl⟩
  · by_cases s0 : stopDuring 0
    · have hval : publishWithRetry pubOk stopDuring = ⟨false, 1, [], true⟩ := by
        rw [hw, e0, if_neg p0, if_pos s0]
      rw [hval]
      exact ⟨by norm_num, ⟨0, by norm_num, rfl⟩, fun _ _ => rfl, hsh, rfl⟩
    · by_cases p1 : pubOk 1
      · have hval : publishWithRetry pubOk stopDuring = ⟨true, 2, [2], false⟩ := by
          rw [hw, e0, if_neg p0, if_neg s0, e1, if_pos p1]
          rfl
        rw [hval]
        exact ⟨by norm_num, ⟨1, by norm_num, rfl⟩, fun _ hs => absurd hs s0, hsh, rfl⟩
      · by_cases s1 : stopDuring 1
        · have hval : publishWithRetry pubOk stopDuring = ⟨false, 2, [2], true⟩ := by
            rw [hw, e0, if_neg p0, if_neg s0, e1, if_neg p1, if_pos s1]
            rfl
          rw [hval]
          exact ⟨by norm_num, ⟨1, by norm_num, rfl⟩, fun _ hs => absurd hs s0, hsh, rfl⟩
        · by_cases p2 : pubOk 2
          · have hval : publishWithRetry pubOk stopDuring = ⟨true, 3, [2, 4], false⟩ := by
              rw [hw, e0, if_neg p0, if_neg s0, e1, if_neg p1, if_neg s1, e2, if_pos p2]
              rfl
            rw [hval]
            exact ⟨by norm_num, ⟨2, by norm_num, rfl⟩, fun _ hs => absurd hs s0, hsh, rfl⟩
          · by_cases s2 : stopDuring 2
            · have hval : publishWithRetry pubOk stopDuring = ⟨false, 3, [2, 4], true⟩ := by
                rw [hw, e0, if_neg p0, if_neg s0, e1, if_neg p1, if_neg s1, e2,
                  if_neg p2, if_pos s2]
                rfl
              rw [hval]
              exact ⟨by norm_num, ⟨2, by norm_num, rfl⟩, fun _ hs => absurd hs s0, hsh, rfl⟩
            · have hval : publishWithRetry pubOk stopDuring = ⟨false, 3, [2, 4, 8], false⟩ := by
                rw [hw, e0, if_neg p0, if_neg s0, e1, if_neg p1, if_neg s1, e2,
                  if_neg p2, if_neg s2, e3]
                rfl
              rw [hval]
              exact ⟨by norm_num, ⟨3, by norm_num, rfl⟩, fun _ hs => absurd hs s0, hsh, rfl⟩

/-- **C7** witness: spec scenario S4 — the first publish fails and Stop
arrives during the first backoff wait: one attempt, error result, no
completed wait. -/
theorem heartbeater_retry_contract_witness :
    (publishWithRetry (fun _ => false) (fun _ => true)).attempts ≤ 3 ∧
    (∃ k, k ≤ 3 ∧
      (publishWithRetry (fun _ => false) (fun _ => true)).completedWaits = [2, 4, 8].take k) ∧
    ((fun _ : Nat => false) 0 = false → (fun _ : Nat => true) 0 = true →
      publishWithRetry (fun _ => false) (fun _ => true) = ⟨false, 1, [], true⟩) ∧
    (∀ buildOk, sendHeartbeatPublishes buildOk ≤ 1) ∧
    sendHeartbeatPublishes true = 1 :=
  heartbeater_retry_contract (fun _ => false) (fun _ => true)

/-! ## Component shutdown (`Start`/`Stop`)

Two stop mechanisms occur in the sources.

Close-based (edge drainer `outbox.go`: `close(stopChan)` guarded by a
select on the already-closed channel; heartbeater and core handler:
`sync.Once` + `close`): closing is a persistent flag the loop's select
observes at its next iteration.

Send-based (core drainer `core_handler.go` part 2 and the fleet poller
`client.go`: `select { case stopChan <- struct{}{}: default: }` on an
unbuffered channel): the signal is delivered only if the loop is
currently blocked in its select; otherwise the `default` branch drops
it, and nothing is recorded.

The loop alternates between blocking in its select (`selecting`) and
running the tick body (`ticking`) until it observes a stop. -/

inductive LoopPhase where
  | selecting
  | ticking
  | stopped
deriving DecidableEq

/-- State of a close-based component: loop phase plus the persistent
closed flag of the stop channel. -/
structure CloseState where
  phase : LoopPhase
  closed : Bool
deriving DecidableEq

/-- Close-based `Stop`: close the channel (a second call finds it
already closed and does nothing — same state). -/
def closeStop (s : CloseState) : CloseState :=
  { s with closed := true }

/-- One scheduler step of a close-based component's loop. -/
def closeLoopStep (s : CloseState) : CloseState :=
  match s.phase with
  | .selecting => if s.closed then { s with phase := .stopped } else { s with phase := .ticking }
  | .ticking => { s with phase := .selecting }
  | .stopped => s

/-- State of a send-based component: only the loop phase — an unbuffered
channel with a `default`-guarded send stores nothing. -/
structure SendState where
  phase : LoopPhase
deriving DecidableEq

/-- Send-based `Stop`: the non-blocking send succeeds only when the loop
is blocked in its select; otherwise the `default` branch drops the
signal. -/
def sendStop (s : SendState) : SendState :=
  match s.phase with
  | .selecting => ⟨.stopped⟩
  | _ => s

/-- One scheduler step of a send-based component's loop: with no stored
signal, a select can only take the ticker case. -/
def sendLoopStep (s : SendState) : SendState :=
  match s.phase with
  | .selecting => ⟨.ticking⟩
  | .ticking => ⟨.selecting⟩
  | .stopped => ⟨.stopped⟩

/-- **C8** (evaluation at the failing input): for the close-based
components `Stop` is idempotent and the loop stops within two scheduler
steps whatever it was doing; the send-based `Stop` of the core drainer
and the fleet poller is also harmless when repeated and works when the
loop sits in its select, but a `Stop` that arrives while the tick body
runs is dropped by the `default` branch and the loop then never
terminates — contradicting the claim (and §5 of the spec). -/
theorem stop_semantics_contract :
    (∀ s : CloseState, closeStop (closeStop s) = closeStop s) ∧
    (∀ s : CloseState, (closeLoopStep (closeLoopStep (closeStop s))).phase = .stopped) ∧
    (∀ s : SendState, sendStop (sendStop s) = sendStop s) ∧
    sendStop ⟨.selecting⟩ = ⟨.stopped⟩ ∧
    sendStop ⟨.ticking⟩ = ⟨.ticking⟩ ∧
    (∀ n : Nat, (sendLoopStep^[n] (sendStop ⟨.ticking⟩)).phase ≠ .stopped) := by
  refine ⟨fun s => rfl, ?_, ?_, rfl, rfl, ?_⟩
  · intro s
    obtain ⟨phase, closed⟩ := s
    cases phase <;> rfl
  · intro s
    obtain ⟨phase⟩ := s
    cases phase <;> rfl
  · intro n
    have key : ∀ k : Nat, ∀ s : SendState, s.phase ≠ .stopped →
        (sendLoopStep^[k] s).phase ≠ .stopped := by
      intro k
      induction k with
      | zero => intro s h; exact h
      | succ k ih =>
        intro s h
        rw [Function.iterate_succ_apply]
        refine ih (sendLoopStep s) ?_
        obtain ⟨phase⟩ := s
        cases phase with
        | selecting => simp [sendLoopStep]
        | ticking => simp [sendLoopStep]
        | stopped => exact absurd rfl h
    exact key n (sendStop ⟨.ticking⟩) (by simp [sendStop])

/-! ## Core handler production report (`core_handler.go`,
`handleProductionReport`)

The loop over `rpt.Reports` skips entries with empty `cat_id` or
non-positive count, skips (without counting) entries whose
`IncrementProduced` fails, and counts an entry as accepted once
`IncrementProduced` succeeded — a failing `LogProduction` is only
logged.  `incOk k` / `logOk k` give the success of the database calls
for the entry at position `k`; `buildOk` is the success of
`NewDataReply` (on failure no ack is sent). -/

/-- One entry of `production.report`. -/
structure ReportEntry where
  catID : String
  count : Int
deriving DecidableEq

/-- The `production.report_ack` body. -/
structure ProductionReportAck where
  stationID : String
  accepted : Nat
deriving DecidableEq

/-- The accepted counter of the entry loop, `k` being the position of
the head entry. -/
def acceptedCount (incOk logOk : Nat → Bool) : List ReportEntry → Nat → Nat
  | [], _ => 0
  | e :: es, k =>
    if e.catID = "" ∨ e.count ≤ 0 then acceptedCount incOk logOk es (k + 1)
    else if incOk k then
      1 + acceptedCount incOk logOk es (k + 1)
    else acceptedCount incOk logOk es (k + 1)

/-- `handleProductionReport`: run the loop, then build and send the ack
(no reply when building it fails). -/
def handleProductionReport (incOk logOk : Nat → Bool) (buildOk : Bool)
    (stationID : String) (reports : List ReportEntry) : Option ProductionReportAck :=
  if buildOk then some ⟨stationID, acceptedCount incOk logOk reports 0⟩ else none

/-- Specification-side count: the number of entries with a non-empty
`cat_id`, a positive count, and a successful `IncrementProduced`. -/
def specAccepted (incOk : Nat → Bool) (reports : List ReportEntry) : Nat :=
  (reports.enum.countP fun p =>
    decide (p.2.catID ≠ "") && decide (0 < p.2.count) && incOk p.1)

theorem acceptedCount_eq_countP (incOk logOk : Nat → Bool)
    (reports : List ReportEntry) :
    ∀ k, acceptedCount incOk logOk reports k =
      ((reports.enumFrom k).countP fun p =>
        decide (p.2.catID ≠ "") && decide (0 < p.2.count) && incOk p.1) := by
  induction reports with
  | nil => intro k; rfl
  | cons e es ih =>
    intro k
    show (if e.catID = "" ∨ e.count ≤ 0 then acceptedCount incOk logOk es (k + 1)
      else if incOk k then 1 + acceptedCount incOk logOk es (k + 1)
      else acceptedCount incOk logOk es (k + 1)) = _
    rw [List.enumFrom_cons, List.countP_cons]
    by_cases h1 : e.catID = "" ∨ e.count ≤ 0
    · rw [if_pos h1, ih (k + 1)]
      have : (decide (e.catID ≠ "") && decide (0 < e.count) && incOk k) = false := by
        rcases h1 with h | h
        · simp [h]
        · have : ¬ (0 < e.count) := by omega
          simp [this]
      rw [this]
      simp
    · rw [if_neg h1]
      push_neg at h1
      by_cases h2 : incOk k
      · rw [if_pos h2, ih (k + 1)]
        have : (decide (e.catID ≠ "") && decide (0 < e.count) && incOk k) = true := by
          simp [h1.1, h2]
          omega
        rw [this]
        simp
        omega
      · rw [if_neg h2, ih (k + 1)]
        have : (decide (e.catID ≠ "") && decide (0 < e.count) && incOk k) = false := by
          simp [h2]
        rw [this]
        simp

/-- **C10**: the accepted count in the `production.report_ack` reply is
exactly the number of entries with non-empty `cat_id`, positive count
and successful `IncrementProduced`; a failing `LogProduction` does not
change it (the count is independent of the `logOk` oracle), entries
skipped by the guard never contribute, and when the reply cannot be
built none is sent. -/
theorem production_report_contract (incOk logOk : Nat → Bool)
    (stationID : String) (reports : List ReportEntry) :
    handleProductionReport incOk logOk true stationID reports =
      some ⟨stationID, specAccepted incOk reports⟩ ∧
    handleProductionReport incOk logOk false stationID reports = none ∧
    (∀ logOk2, acceptedCount incOk logOk reports 0 = acceptedCount incOk logOk2 reports 0) := by
  refine ⟨?_, rfl, ?_⟩
  · unfold handleProductionReport specAccepted
    rw [if_pos rfl, acceptedCount_eq_countP incOk logOk reports 0]
    rfl
  · intro logOk2
    rw [acceptedCount_eq_countP incOk logOk reports 0,
      acceptedCount_eq_countP incOk logOk2 reports 0]

/-- **C10** witness: a report with an empty-cat entry, a zero-count
entry, an entry whose increment fails, and two accepted entries (one
with a failing `LogProduction`) yields `accepted = 2`. -/
theorem production_report_contract_witness :
    handleProductionReport (fun k => decide (k ≠ 2)) (fun k => decide (k ≠ 3)) true "edge-1"
      [⟨"", 5⟩, ⟨"A", 0⟩, ⟨"B", 3⟩, ⟨"C", 2⟩, ⟨"D", 1⟩] =
      some ⟨"edge-1", specAccepted (fun k => decide (k ≠ 2))
        [⟨"", 5⟩, ⟨"A", 0⟩, ⟨"B", 3⟩, ⟨"C", 2⟩, ⟨"D", 1⟩]⟩ ∧
    specAccepted (fun k => decide (k ≠ 2))
      [⟨"", 5⟩, ⟨"A", 0⟩, ⟨"B", 3⟩, ⟨"C", 2⟩, ⟨"D", 1⟩] = 2 :=
  ⟨(production_report_contract (fun k => decide (k ≠ 2)) (fun k => decide (k ≠ 3)) "edge-1"
      [⟨"", 5⟩, ⟨"A", 0⟩, ⟨"B", 3⟩, ⟨"C", 2⟩, ⟨"D", 1⟩]).1, by decide⟩

end Shingo
